import Mathlib

/-!
Shallow embedding of the `skylight-rs` crate's core: the `Handle` wrapper
around a winapi `HANDLE` (src/handleapi.rs), the derived `Process`
(src/processthreadsapi.rs), `HModule` (src/libloaderapi.rs), the
`BStr`/`BStrRef` length-prefixed wide string (src/oleauto/bstr.rs),
`CoTaskMemWideString` (src/objbase.rs), and the `Snapshot`/`ProcessIter`
enumeration (src/tlhelp32.rs).

Foreign calls (`CloseHandle`, `FreeLibrary`, `WaitForSingleObject`,
`SysAllocStringLen`, `SysFreeString`, `CoTaskMemAlloc`, `CoTaskMemFree`,
`Process32FirstW`, `Process32NextW`) are modelled as functions over an
explicit world state that records the outcome the OS chooses and, as
instrumentation, how many times each release call has run and how many
foreign allocations are live.  Rust's affine ownership (a consumed value
cannot be used again) cannot be stated inside the embedding; what can be
stated is the dynamic footprint of each lifetime ending, which the
source makes explicit through `ManuallyDrop` and `std::mem::forget`.
-/

namespace Skylight

/-- An OS error code, as captured by `std::io::Error::last_os_error()`. -/
structure OsError where
  code : Int
deriving DecidableEq, Repr

/-- World state threaded through the handle-releasing foreign calls.
`closeOk raw` is whether `CloseHandle` on raw handle `raw` would succeed
now; `freeOk raw` likewise for `FreeLibrary`; `waitRet raw millis` is the
`DWORD` that `WaitForSingleObject` returns; `lastError` is the thread's
last OS error code.  `closeCalls` and `freeCalls` count, per raw handle,
how many times the corresponding release call has been invoked
(instrumentation, not part of the source). -/
structure HandleWorld where
  closeOk : Nat → Bool
  freeOk : Nat → Bool
  waitRet : Nat → Nat → Nat
  lastError : Int
  closeCalls : Nat → Nat
  freeCalls : Nat → Nat

/-- The foreign `CloseHandle` call: returns the nonzero-on-success flag
chosen by the OS and bumps the invocation counter for that raw handle. -/
def CloseHandle (w : HandleWorld) (raw : Nat) : Bool × HandleWorld :=
  (w.closeOk raw,
   { w with closeCalls := fun r => if r = raw then w.closeCalls r + 1 else w.closeCalls r })

/-- The foreign `FreeLibrary` call, analogous to `CloseHandle`. -/
def FreeLibrary (w : HandleWorld) (raw : Nat) : Bool × HandleWorld :=
  (w.freeOk raw,
   { w with freeCalls := fun r => if r = raw then w.freeCalls r + 1 else w.freeCalls r })

/-- The wrapper around a winapi `HANDLE` (src/handleapi.rs).  The raw
handle is modelled as a `Nat`. -/
structure Handle where
  raw : Nat
deriving DecidableEq, Repr

/-- Embeds `Handle::close` (src/handleapi.rs lines 40-52): wrap `self` in
`ManuallyDrop`, call `CloseHandle` once; nonzero return is `Ok(())`,
zero return yields `Err((ManuallyDrop::into_inner(handle), last_os_error()))`,
i.e. the error carries back the very handle that was being closed. -/
def Handle.close (h : Handle) (w : HandleWorld) :
    (Except (Handle × OsError) Unit) × HandleWorld :=
  let r := CloseHandle w h.raw
  if r.1 then (Except.ok (), r.2)
  else (Except.error (h, ⟨r.2.lastError⟩), r.2)

/-- Embeds `Handle::into_raw` (src/handleapi.rs lines 31-33):
`ManuallyDrop::new(self).0` hands out the raw handle and suppresses the
drop glue, so no foreign call happens and the world is untouched. -/
def Handle.intoRaw (h : Handle) : Nat :=
  h.raw

/-- Embeds `impl Drop for Handle` (src/handleapi.rs lines 55-59):
`std::mem::forget(Self(self.0).close())` runs `close` once and forgets
the result, so a failing close neither reports nor re-drops the handle
returned inside the error. -/
def Handle.dropGlue (h : Handle) (w : HandleWorld) : HandleWorld :=
  (h.close w).2

/-- A process handle (src/processthreadsapi.rs): `struct Process(Handle)`. -/
structure Process where
  handle : Handle
deriving DecidableEq, Repr

/-- Embeds `Process::close` (src/processthreadsapi.rs lines 70-72):
`self.0.close().map_err(|(handle, err)| (Self(handle), err))` — the inner
`Handle` recovered from a failed close is rewrapped into a `Process`. -/
def Process.close (p : Process) (w : HandleWorld) :
    (Except (Process × OsError) Unit) × HandleWorld :=
  match p.handle.close w with
  | (Except.ok (), w') => (Except.ok (), w')
  | (Except.error (h, e), w') => (Except.error (⟨h⟩, e), w')

/-- A snapshot handle (src/tlhelp32.rs): `struct Snapshot(Handle)`. -/
structure Snapshot where
  handle : Handle
deriving DecidableEq, Repr

/-- Embeds `Snapshot::close` (src/tlhelp32.rs lines 56-58), identical in
shape to `Process::close`. -/
def Snapshot.close (s : Snapshot) (w : HandleWorld) :
    (Except (Snapshot × OsError) Unit) × HandleWorld :=
  match s.handle.close w with
  | (Except.ok (), w') => (Except.ok (), w')
  | (Except.error (h, e), w') => (Except.error (⟨h⟩, e), w')

/-- A loaded library (src/libloaderapi.rs): `struct HModule(HMODULE)`. -/
structure HModule where
  raw : Nat
deriving DecidableEq, Repr

/-- Embeds `HModule::destroy` (src/libloaderapi.rs lines 31-42): wrap in
`ManuallyDrop`, call `FreeLibrary` once; zero return yields the error
carrying the original `HModule` plus the OS error. -/
def HModule.destroy (m : HModule) (w : HandleWorld) :
    (Except (HModule × OsError) Unit) × HandleWorld :=
  let r := FreeLibrary w m.raw
  if r.1 then (Except.ok (), r.2)
  else (Except.error (m, ⟨r.2.lastError⟩), r.2)

/-- Embeds `impl Drop for HModule` (src/libloaderapi.rs lines 48-53):
`std::mem::forget(Self(self.0).destroy())` — one `FreeLibrary` call,
result forgotten, no recursive drop. -/
def HModule.dropGlue (m : HModule) (w : HandleWorld) : HandleWorld :=
  (m.destroy w).2

/-- The three ways a `Handle`'s lifetime can end in the source: explicit
`close(self)`, `into_raw(self)`, or the implicit drop at scope exit.
Because `close` and `into_raw` consume the value (and guard the interior
with `ManuallyDrop`), the drop glue does not additionally run after
either of them; this function makes that drop semantics explicit. -/
inductive HandleExit
  | explicitClose
  | intoRaw
  | scopeExit
deriving DecidableEq, Repr

/-- The total world effect of ending a `Handle`'s lifetime a given way:
`explicitClose` runs `Handle.close` (its `ManuallyDrop` suppresses any
further drop glue), `intoRaw` runs no foreign call at all, and
`scopeExit` runs the drop glue, which calls `close` once and forgets
the result. -/
def Handle.endLifetime : HandleExit → Handle → HandleWorld → HandleWorld
  | HandleExit.explicitClose, h, w => (h.close w).2
  | HandleExit.intoRaw, _, w => w
  | HandleExit.scopeExit, h, w => h.dropGlue w

/-- World state threaded through the foreign string allocators.
`sysAllocFails` / `coTaskAllocFails` are whether `SysAllocStringLen` /
`CoTaskMemAlloc` return null on the next call; `liveAllocs` counts the
foreign allocations currently live (instrumentation for leak claims);
`junk` is the arbitrary content of uninitialized foreign memory. -/
structure MemWorld where
  sysAllocFails : Bool
  coTaskAllocFails : Bool
  liveAllocs : Nat
  junk : Nat
deriving DecidableEq, Repr

/-- A `BSTR` allocation as laid out by `SysAllocStringLen`: a 4-byte
unsigned byte count stored immediately before the data, and the wide
character buffer itself including its trailing terminator slot.  Wide
characters are modelled as `Nat` code units. -/
structure BStrAlloc where
  byteLenField : Nat
  buf : List Nat
deriving DecidableEq, Repr

/-- The foreign `SysAllocStringLen(psz, len)` call: may fail (null);
otherwise allocates `len + 1` wide chars, records `len * 2` in the byte
count field, null-terminates, and copies `len` chars from `psz` when it
is non-null (uninitialized slots hold `junk`). -/
def SysAllocStringLen (w : MemWorld) (psz : Option (List Nat)) (len : Nat) :
    Option BStrAlloc × MemWorld :=
  if w.sysAllocFails then (none, w)
  else
    let data := match psz with
      | none => List.replicate len w.junk
      | some d => d.take len ++ List.replicate (len - d.length) w.junk
    (some ⟨2 * len, data ++ [0]⟩, { w with liveAllocs := w.liveAllocs + 1 })

/-- The foreign `SysFreeString` call: releases one live allocation. -/
def SysFreeString (w : MemWorld) : MemWorld :=
  { w with liveAllocs := w.liveAllocs - 1 }

/-- The error type `BStrCreationError` (src/oleauto/bstr.rs lines 22-35);
the `TryFromIntError` payload of `LenTooLarge` carries no information
and is dropped. -/
inductive BStrCreationError
  | LenTooLarge
  | AllocFailed
  | IterTooLarge
  | IterTooShort
deriving DecidableEq, Repr

/-- An owned `BStr` (src/oleauto/bstr.rs): in Rust a raw pointer to the
allocation; here the value owns the allocation it points at. -/
structure BStr where
  alloc : BStrAlloc
deriving DecidableEq, Repr

/-- Outcome of the write loop inside `BStr::from_wide_iter`: the final
buffer (or the creation error), plus the log of buffer indices written
(instrumentation, not part of the source). -/
structure IterLoopOut where
  result : Except BStrCreationError (List Nat)
  writes : List Nat

/-- Embeds the `for (i, c) in iter.enumerate()` loop of
`BStr::from_wide_iter` (src/oleauto/bstr.rs lines 119-137): `i` is the
enumerate index, `strLen` the written-element counter; an element with
`i >= len` aborts with `IterTooLarge` before any write, otherwise
`ptr.add(i).write(c)` stores the element at index `i`; when the
iterator ends, `strLen != len` aborts with `IterTooShort`. -/
def fromWideIterLoop (len : Nat) : List Nat → Nat → Nat → List Nat → IterLoopOut
  | [], _, strLen, buf =>
      if strLen ≠ len then ⟨Except.error BStrCreationError.IterTooShort, []⟩
      else ⟨Except.ok buf, []⟩
  | c :: rest, i, strLen, buf =>
      if len ≤ i then ⟨Except.error BStrCreationError.IterTooLarge, []⟩
      else
        let out := fromWideIterLoop len rest (i + 1) (strLen + 1) (buf.set i c)
        ⟨out.result, i :: out.writes⟩

/-- Embeds `BStr::from_wide_iter` (src/oleauto/bstr.rs lines 108-141):
convert `len` to `u32` (`LenTooLarge` when it does not fit), allocate
with `SysAllocStringLen(null, len)` (`AllocFailed` on null), run the
write loop, and on either loop error free the partial allocation
(`drop(Self(ptr))`) before returning.  Returns the result, the final
world, and the write-index log. -/
def BStr.fromWideIter (w : MemWorld) (iter : List Nat) (len : Nat) :
    (Except BStrCreationError BStr) × MemWorld × List Nat :=
  if len < 2 ^ 32 then
    match SysAllocStringLen w none len with
    | (none, w') => (Except.error BStrCreationError.AllocFailed, w', [])
    | (some a, w') =>
        let out := fromWideIterLoop len iter 0 0 a.buf
        match out.result with
        | Except.error e => (Except.error e, SysFreeString w', out.writes)
        | Except.ok buf => (Except.ok ⟨⟨a.byteLenField, buf⟩⟩, w', out.writes)
  else (Except.error BStrCreationError.LenTooLarge, w, [])

/-- Embeds `BStr::from_wide_slice` (src/oleauto/bstr.rs lines 148-161):
length taken from the slice itself, allocation copies the slice. -/
def BStr.fromWideSlice (w : MemWorld) (slice : List Nat) :
    (Except BStrCreationError BStr) × MemWorld :=
  if slice.length < 2 ^ 32 then
    match SysAllocStringLen w (some slice) slice.length with
    | (none, w') => (Except.error BStrCreationError.AllocFailed, w')
    | (some a, w') => (Except.ok ⟨a⟩, w')
  else (Except.error BStrCreationError.LenTooLarge, w)

/-- Embeds `TryFrom<&OsStr> for BStr` (src/oleauto/bstr.rs lines
390-399).  An `OsStr` is modelled by its `encode_wide()` code-unit
sequence (on Windows, `OsString::from_wide` inverts `encode_wide`
exactly): `len = data.encode_wide().count()`, then
`from_wide_iter(data.encode_wide(), len)`. -/
def BStr.tryFromOsStr (w : MemWorld) (data : List Nat) :
    (Except BStrCreationError BStr) × MemWorld × List Nat :=
  BStr.fromWideIter w data data.length

/-- A borrowed `BStrRef` (src/oleauto/bstr.rs): an unsized view
`struct BStrRef { inner: [u16] }` over the whole buffer, terminator
included. -/
structure BStrRef where
  inner : List Nat
deriving DecidableEq, Repr

/-- Embeds `BStrRef::from_ptr` (src/oleauto/bstr.rs lines 242-254): read
the 4-byte unsigned byte count stored immediately before the data
pointer, then view `len / 2 + 1` wide chars starting at the data
pointer.  (`len.try_into::<usize>()` cannot fail on a 64-bit target.) -/
def BStrRef.fromPtr (a : BStrAlloc) : BStrRef :=
  ⟨a.buf.take (a.byteLenField / 2 + 1)⟩

/-- Embeds `BStr::as_bstr_ref` / the `Deref` impl (src/oleauto/bstr.rs
lines 187-207): `BStrRef::from_ptr(self.0)`. -/
def BStr.asBStrRef (b : BStr) : BStrRef :=
  BStrRef.fromPtr b.alloc

/-- Embeds `BStrRef::len` (src/oleauto/bstr.rs lines 299-301): byte
length `(inner.len() * 2) - 2`, excluding the terminator. -/
def BStrRef.len (r : BStrRef) : Nat :=
  r.inner.length * 2 - 2

/-- Embeds `BStrRef::as_wide_slice` (src/oleauto/bstr.rs lines 316-318):
`&inner[..inner.len() - 1]`, excluding the terminator. -/
def BStrRef.asWideSlice (r : BStrRef) : List Nat :=
  r.inner.take (r.inner.length - 1)

/-- Embeds `BStrRef::as_wide_slice_with_nul` (src/oleauto/bstr.rs lines
325-327): the whole `inner`, terminator included. -/
def BStrRef.asWideSliceWithNul (r : BStrRef) : List Nat :=
  r.inner

/-- Embeds `BStrRef::contains_nul` (src/oleauto/bstr.rs lines 331-333):
`as_wide_slice().iter().any(|el| *el == 0)`. -/
def BStrRef.containsNul (r : BStrRef) : Bool :=
  r.asWideSlice.any (fun el => el == 0)

/-- Embeds `BStrRef::to_os_string` (src/oleauto/bstr.rs lines 338-340):
`OsString::from_wide(self.as_wide_slice())`; with `OsString` modelled by
its wide code units, `from_wide` is the identity on the slice. -/
def BStrRef.toOsString (r : BStrRef) : List Nat :=
  r.asWideSlice

/-- Calls of `len()` on an owned `BStr` go through `Deref` to
`BStrRef::len`. -/
def BStr.len (b : BStr) : Nat :=
  b.asBStrRef.len

/-- Calls of `as_wide_slice()` on an owned `BStr` go through `Deref`. -/
def BStr.asWideSlice (b : BStr) : List Nat :=
  b.asBStrRef.asWideSlice

/-- Calls of `contains_nul()` on an owned `BStr` go through `Deref`. -/
def BStr.containsNul (b : BStr) : Bool :=
  b.asBStrRef.containsNul

/-- Calls of `to_os_string()` on an owned `BStr` go through `Deref`. -/
def BStr.toOsString (b : BStr) : List Nat :=
  b.asBStrRef.toOsString

/-- A valid length-prefixed allocation: a non-empty buffer (it at least
holds the terminator slot) whose byte count field is twice the number
of data elements, i.e. twice the buffer length minus the terminator. -/
def BStrAlloc.WellFormed (a : BStrAlloc) : Prop :=
  0 < a.buf.length ∧ a.byteLenField = 2 * (a.buf.length - 1)

/-- The foreign `CoTaskMemAlloc(bytes)` call: may fail (null); otherwise
hands out `bytes / 2` uninitialized wide-char slots. -/
def CoTaskMemAlloc (w : MemWorld) (bytes : Nat) : Option (List Nat) × MemWorld :=
  if w.coTaskAllocFails then (none, w)
  else (some (List.replicate (bytes / 2) w.junk), { w with liveAllocs := w.liveAllocs + 1 })

/-- The sequential copy loop `for (i, c) in ...enumerate() { write(ptr.add(i), c) }`
shared by `CoTaskMemWideString::new` (src/objbase.rs lines 77-81):
write the elements of `data` into `buf` starting at index `i`. -/
def writeSeq (buf : List Nat) (i : Nat) : List Nat → List Nat
  | [] => buf
  | c :: rest => writeSeq (buf.set i c) (i + 1) rest

/-- A NUL-terminated wide string allocated with `CoTaskMemAlloc`
(src/objbase.rs): in Rust a `NonNull<u16>`; here the value owns the
buffer it points at. -/
structure CoTaskMemWideString where
  buf : List Nat
deriving DecidableEq, Repr

/-- Embeds `CoTaskMemWideString::new` (src/objbase.rs lines 66-84):
`len = data.encode_wide().count() + 1` (terminator included), allocate
`len * 2` bytes, return `None` on allocation failure, else copy
`data.encode_wide().chain(once(0))` element by element. -/
def CoTaskMemWideString.new (w : MemWorld) (data : List Nat) :
    Option CoTaskMemWideString × MemWorld :=
  let len := data.length + 1
  match CoTaskMemAlloc w (len * 2) with
  | (none, w') => (none, w')
  | (some buf, w') => (some ⟨writeSeq buf 0 (data ++ [0])⟩, w')

/-- The borrowing iterator `Iter` over a `CoTaskMemWideString`
(src/objbase.rs lines 150-159): the string plus a scan offset. -/
structure CoTaskMemWideString.Iter where
  data : CoTaskMemWideString
  offset : Nat

/-- Embeds `Iter::current` (src/objbase.rs lines 162-164): read the wide
char at the current offset.  In-contract buffers always carry a
terminator, so the scan never reads past the allocation; the `getD`
default stands for the arbitrary out-of-allocation byte and is never
reached from `new`. -/
def CoTaskMemWideString.Iter.current (it : CoTaskMemWideString.Iter) : Nat :=
  it.data.buf.getD it.offset 0

/-- Embeds `Iter::current_is_nul` (src/objbase.rs lines 167-169). -/
def CoTaskMemWideString.Iter.currentIsNul (it : CoTaskMemWideString.Iter) : Bool :=
  it.current == 0

/-- Embeds `impl Iterator for Iter` (src/objbase.rs lines 172-185): stop
at the first zero code unit, else yield the current char and advance. -/
def CoTaskMemWideString.Iter.next (it : CoTaskMemWideString.Iter) :
    Option (Nat × CoTaskMemWideString.Iter) :=
  if it.currentIsNul then none
  else some (it.current, { it with offset := it.offset + 1 })

/-- Run the iterator to completion, with fuel bounding the number of
steps (the Rust loop terminates because every in-contract buffer holds
a terminator; the fuel used below, the buffer length, always suffices). -/
def CoTaskMemWideString.Iter.collect : Nat → CoTaskMemWideString.Iter → List Nat
  | 0, _ => []
  | fuel + 1, it =>
      match it.next with
      | none => []
      | some (c, it') => CoTaskMemWideString.Iter.collect fuel it'
        |> fun rest => c :: rest

/-- The full code-unit sequence produced by `iter()` (src/objbase.rs
lines 103-105): scan from offset 0. -/
def CoTaskMemWideString.iterList (s : CoTaskMemWideString) : List Nat :=
  CoTaskMemWideString.Iter.collect s.buf.length ⟨s, 0⟩

/-- Embeds `CoTaskMemWideString::len` (src/objbase.rs lines 89-91):
`self.iter().count()`. -/
def CoTaskMemWideString.len (s : CoTaskMemWideString) : Nat :=
  s.iterList.length

/-- Embeds `CoTaskMemWideString::as_slice` (src/objbase.rs lines
117-122): `from_raw_parts(ptr, self.len())`. -/
def CoTaskMemWideString.asSlice (s : CoTaskMemWideString) : List Nat :=
  s.buf.take s.len

/-- Embeds `CoTaskMemWideString::as_os_string` (src/objbase.rs lines
110-112): `OsString::from_wide(self.as_slice())`, with `OsString`
modelled by its wide code units. -/
def CoTaskMemWideString.asOsString (s : CoTaskMemWideString) : List Nat :=
  s.asSlice

/-- The UTF-16 encoding of the literal `"hello world!"` (12 ASCII code
units). -/
def helloWorldWide : List Nat :=
  [104, 101, 108, 108, 111, 32, 119, 111, 114, 108, 100, 33]

/-- The winapi `WAIT_FAILED` sentinel, `0xFFFFFFFF`. -/
def WAIT_FAILED : Nat := 0xffffffff

/-- The winapi `WAIT_TIMEOUT` return code, `0x102`. -/
def WAIT_TIMEOUT : Nat := 0x102

/-- The winapi `WAIT_OBJECT_0` return code, `0`. -/
def WAIT_OBJECT_0 : Nat := 0

/-- Embeds `Process::wait` (src/processthreadsapi.rs lines 55-63): call
`WaitForSingleObject` (whose `DWORD` return the world supplies); if the
return equals `WAIT_FAILED`, report the last OS error, otherwise
`Ok(())` — including when the return is `WAIT_TIMEOUT`. -/
def Process.wait (p : Process) (w : HandleWorld) (millis : Nat) : Except OsError Unit :=
  let ret := w.waitRet p.handle.raw millis
  if ret = WAIT_FAILED then Except.error ⟨w.lastError⟩ else Except.ok ()

/-- The `PROCESSENTRY32W` record filled in by the toolhelp enumeration;
only the process id is carried, standing in for the whole record (the
claims under verification treat entries as opaque copied data).  The
zeroed record of `std::mem::zeroed()` is `⟨0⟩`. -/
structure PROCESSENTRY32W where
  pid : Nat
deriving DecidableEq, Repr

/-- The OS-side state behind a snapshot handle: the list of process
entries captured by `CreateToolhelp32Snapshot` and the enumeration
cursor that `Process32FirstW` / `Process32NextW` move. -/
structure SnapshotState where
  entries : List PROCESSENTRY32W
  cursor : Nat
deriving DecidableEq, Repr

/-- The foreign `Process32FirstW(handle, &mut current)` call: restart
the enumeration; `TRUE` and the first entry written into the cursor
record when the snapshot is non-empty, `FALSE` (record untouched)
otherwise. -/
def Process32FirstW (s : SnapshotState) (cur : PROCESSENTRY32W) :
    Bool × PROCESSENTRY32W × SnapshotState :=
  match s.entries with
  | [] => (false, cur, s)
  | e :: _ => (true, e, { s with cursor := 1 })

/-- The foreign `Process32NextW(handle, &mut current)` call: `TRUE` and
the next entry written into the cursor record while entries remain,
`FALSE` (record untouched) once the enumeration is exhausted. -/
def Process32NextW (s : SnapshotState) (cur : PROCESSENTRY32W) :
    Bool × PROCESSENTRY32W × SnapshotState :=
  if h : s.cursor < s.entries.length then
    (true, s.entries.get ⟨s.cursor, h⟩, { s with cursor := s.cursor + 1 })
  else (false, cur, s)

/-- The iterator over processes in a snapshot (src/tlhelp32.rs lines
63-67): the reused cursor record `current`, the `has_more` flag, and
the exclusively borrowed snapshot state. -/
structure ProcessIter where
  current : PROCESSENTRY32W
  has_more : Bool
  snap : SnapshotState
deriving DecidableEq, Repr

/-- Embeds `ProcessIter::from_snapshot` (src/tlhelp32.rs lines 73-84):
zero the cursor record, set its size field, and prime the enumeration
with `Process32FirstW`, recording whether a first entry exists. -/
def ProcessIter.fromSnapshot (s : SnapshotState) : ProcessIter :=
  let current : PROCESSENTRY32W := ⟨0⟩
  let r := Process32FirstW s current
  ⟨r.2.1, r.1, r.2.2⟩

/-- Embeds `impl Iterator for ProcessIter` (src/tlhelp32.rs lines
87-101): while `has_more`, copy the current record out as the yielded
owned entry, then ask `Process32NextW` for the next entry and update
`has_more`; otherwise yield nothing and change nothing. -/
def ProcessIter.next (it : ProcessIter) : Option PROCESSENTRY32W × ProcessIter :=
  if it.has_more then
    let ret := it.current
    let r := Process32NextW it.snap it.current
    (some ret, ⟨r.2.1, r.1, r.2.2⟩)
  else (none, it)

/-- Drive the iterator for up to `n` calls of `next`, collecting the
yielded entries (a `None` stops the collection, as a `for` loop
would). -/
def ProcessIter.run : Nat → ProcessIter → List PROCESSENTRY32W
  | 0, _ => []
  | n + 1, it =>
      match it.next with
      | (none, _) => []
      | (some e, it') => e :: ProcessIter.run n it'

/-- C1: `Handle.close` invokes `CloseHandle` exactly once; on success the
result is `Ok(())`; on failure the error carries the original handle and
the OS error, `Process.close` and `Snapshot.close` rewrap that handle
into the domain type, and the recovered handle supports a second close
attempt (which runs the release call once more). -/
theorem close_releases_once_and_recovers (h : Handle) (w : HandleWorld) :
    ((h.close w).2.closeCalls h.raw = w.closeCalls h.raw + 1) ∧
    (w.closeOk h.raw = true → (h.close w).1 = Except.ok ()) ∧
    (w.closeOk h.raw = false →
      (h.close w).1 = Except.error (h, ⟨w.lastError⟩) ∧
      (Process.close ⟨h⟩ w).1 = Except.error (⟨h⟩, ⟨w.lastError⟩) ∧
      (Snapshot.close ⟨h⟩ w).1 = Except.error (⟨h⟩, ⟨w.lastError⟩) ∧
      (h.close ((h.close w).2)).2.closeCalls h.raw = w.closeCalls h.raw + 2) := by
  refine ⟨?_, ?_, ?_⟩
  · simp [Handle.close, CloseHandle]
    split <;> simp
  · intro hok
    simp [Handle.close, CloseHandle, hok]
  · intro hbad
    refine ⟨?_, ?_, ?_, ?_⟩
    · simp [Handle.close, CloseHandle, hbad]
    · simp [Process.close, Handle.close, CloseHandle, hbad]
    · simp [Snapshot.close, Handle.close, CloseHandle, hbad]
    · simp [Handle.close, CloseHandle, hbad]

/-- Witness for `close_releases_once_and_recovers` at a concrete world
where `CloseHandle` always fails with error code 5. -/
theorem close_releases_once_and_recovers_witness :
    ((Handle.close ⟨7⟩ ⟨fun _ => false, fun _ => true, fun _ _ => 0, 5, fun _ => 0, fun _ => 0⟩).1 =
      Except.error (⟨7⟩, ⟨5⟩)) ∧
    ((Handle.close ⟨7⟩ ⟨fun _ => false, fun _ => true, fun _ _ => 0, 5, fun _ => 0, fun _ => 0⟩).2.closeCalls 7 = 1) := by
  have h := close_releases_once_and_recovers ⟨7⟩
    ⟨fun _ => false, fun _ => true, fun _ _ => 0, 5, fun _ => 0, fun _ => 0⟩
  exact ⟨(h.2.2 rfl).1, h.1⟩

/-- C2: ending a `Handle`'s lifetime runs the release call at most once:
exactly once for explicit `close` and for the implicit drop at scope
exit (even when the close fails — the drop glue forgets the error), and
not at all after `into_raw`; `HModule`'s drop glue likewise runs
`FreeLibrary` exactly once. -/
theorem release_at_most_once_per_lifetime (e : HandleExit) (h : Handle) (m : HModule)
    (w : HandleWorld) :
    ((Handle.endLifetime e h w).closeCalls h.raw ≤ w.closeCalls h.raw + 1) ∧
    (e ≠ HandleExit.intoRaw →
      (Handle.endLifetime e h w).closeCalls h.raw = w.closeCalls h.raw + 1) ∧
    (e = HandleExit.intoRaw → Handle.endLifetime e h w = w) ∧
    ((m.dropGlue w).freeCalls m.raw = w.freeCalls m.raw + 1) := by
  have hm : (m.dropGlue w).freeCalls m.raw = w.freeCalls m.raw + 1 := by
    simp [HModule.dropGlue, HModule.destroy, FreeLibrary]
    split <;> simp
  have hc : ∀ w' : HandleWorld, (h.close w').2.closeCalls h.raw = w'.closeCalls h.raw + 1 := by
    intro w'
    simp [Handle.close, CloseHandle]
    split <;> simp
  cases e with
  | explicitClose =>
      exact ⟨le_of_eq (hc w), fun _ => hc w, fun hcontr => absurd hcontr (by decide), hm⟩
  | intoRaw =>
      exact ⟨by simp [Handle.endLifetime], fun hcontr => absurd rfl hcontr, fun _ => rfl, hm⟩
  | scopeExit =>
      exact ⟨le_of_eq (hc w), fun _ => hc w, fun hcontr => absurd hcontr (by decide), hm⟩

/-- Witness for `release_at_most_once_per_lifetime`: at a concrete world
where the release call fails, the scope-exit drop still runs it exactly
once, and `into_raw` leaves the world untouched. -/
theorem release_at_most_once_per_lifetime_witness :
    ((Handle.endLifetime HandleExit.scopeExit ⟨3⟩
        ⟨fun _ => false, fun _ => false, fun _ _ => 0, 5, fun _ => 0, fun _ => 0⟩).closeCalls 3 = 1) ∧
    (Handle.endLifetime HandleExit.intoRaw ⟨3⟩
        ⟨fun _ => false, fun _ => false, fun _ _ => 0, 5, fun _ => 0, fun _ => 0⟩ =
      ⟨fun _ => false, fun _ => false, fun _ _ => 0, 5, fun _ => 0, fun _ => 0⟩) := by
  have h1 := release_at_most_once_per_lifetime HandleExit.scopeExit ⟨3⟩ ⟨9⟩
    ⟨fun _ => false, fun _ => false, fun _ _ => 0, 5, fun _ => 0, fun _ => 0⟩
  have h2 := release_at_most_once_per_lifetime HandleExit.intoRaw ⟨3⟩ ⟨9⟩
    ⟨fun _ => false, fun _ => false, fun _ _ => 0, 5, fun _ => 0, fun _ => 0⟩
  exact ⟨h1.2.1 (by simp), h2.2.2.1 rfl⟩

/-- C10: `Process.wait` returns an error if and only if
`WaitForSingleObject` returned the `WAIT_FAILED` sentinel; a
`WAIT_TIMEOUT` return still yields `Ok(())`, identical to the
`WAIT_OBJECT_0` (process exited) outcome, so the two cannot be told
apart from the result. -/
theorem wait_err_iff_wait_failed (p : Process) (w : HandleWorld) (millis : Nat) :
    ((∃ e, Process.wait p w millis = Except.error e) ↔
      w.waitRet p.handle.raw millis = WAIT_FAILED) ∧
    (w.waitRet p.handle.raw millis = WAIT_TIMEOUT → Process.wait p w millis = Except.ok ()) ∧
    (∀ w' : HandleWorld, w.waitRet p.handle.raw millis = WAIT_TIMEOUT →
      w'.waitRet p.handle.raw millis = WAIT_OBJECT_0 →
      Process.wait p w millis = Process.wait p w' millis) := by
  refine ⟨⟨?_, ?_⟩, ?_, ?_⟩
  · rintro ⟨e, he⟩
    by_contra hne
    simp [Process.wait, hne] at he
  · intro hf
    exact ⟨⟨w.lastError⟩, by simp [Process.wait, hf]⟩
  · intro ht
    have : w.waitRet p.handle.raw millis ≠ WAIT_FAILED := by
      rw [ht]; decide
    simp [Process.wait, this]
  · intro w' ht ho
    have h1 : w.waitRet p.handle.raw millis ≠ WAIT_FAILED := by
      rw [ht]; decide
    have h2 : w'.waitRet p.handle.raw millis ≠ WAIT_FAILED := by
      rw [ho]; decide
    simp [Process.wait, h1, h2]

/-- Witness for `wait_err_iff_wait_failed` at a concrete world whose
wait call times out: the result is still `Ok(())`. -/
theorem wait_err_iff_wait_failed_witness :
    Process.wait ⟨⟨4⟩⟩ ⟨fun _ => true, fun _ => true, fun _ _ => 258, 0, fun _ => 0, fun _ => 0⟩ 100 =
      Except.ok () := by
  have h := wait_err_iff_wait_failed ⟨⟨4⟩⟩
    ⟨fun _ => true, fun _ => true, fun _ _ => 258, 0, fun _ => 0, fun _ => 0⟩ 100
  exact h.2.1 rfl

/-- The sequential copy loop overwrites exactly the slots it is aimed
at: writing `data` into `front ++ pad` starting at `front.length`
replaces `pad` (of the same length) by `data`. -/
theorem writeSeq_overwrite : ∀ (data front pad : List Nat), pad.length = data.length →
    writeSeq (front ++ pad) front.length data = front ++ data := by
  intro data
  induction data with
  | nil =>
      intro front pad hlen
      have hp : pad = [] := List.eq_nil_of_length_eq_zero hlen
      simp [writeSeq, hp]
  | cons c rest ih =>
      intro front pad hlen
      cases pad with
      | nil => simp at hlen
      | cons p pad' =>
          have hset : (front ++ p :: pad').set front.length c = (front ++ [c]) ++ pad' := by
            rw [List.set_append_right _ _ (le_refl _)]
            simp
          have hih := ih (front ++ [c]) pad' (by simpa using hlen)
          simp only [writeSeq, hset]
          simp only [List.length_append, List.length_cons, List.length_nil] at hih ⊢
          simpa using hih

/-- When the iterator runs out while every index stayed in range but
fewer than `len` elements were written, the loop reports
`IterTooShort`. -/
theorem fromWideIterLoop_short (len : Nat) : ∀ (iter : List Nat) (i strLen : Nat)
    (buf : List Nat), i + iter.length ≤ len → strLen + iter.length ≠ len →
    (fromWideIterLoop len iter i strLen buf).result =
      Except.error BStrCreationError.IterTooShort := by
  intro iter
  induction iter with
  | nil =>
      intro i strLen buf _ hne
      have h : strLen ≠ len := by simpa using hne
      simp [fromWideIterLoop, h]
  | cons c rest ih =>
      intro i strLen buf hle hne
      have hguard : ¬ len ≤ i := by simp at hle; omega
      simp only [fromWideIterLoop, if_neg hguard]
      exact ih (i + 1) (strLen + 1) (buf.set i c) (by simp at hle ⊢; omega)
        (by simp at hne ⊢; omega)

/-- When the iterator holds more elements than fit below `len`, the
loop reports `IterTooLarge`. -/
theorem fromWideIterLoop_large (len : Nat) : ∀ (iter : List Nat) (i strLen : Nat)
    (buf : List Nat), i ≤ len → len < i + iter.length →
    (fromWideIterLoop len iter i strLen buf).result =
      Except.error BStrCreationError.IterTooLarge := by
  intro iter
  induction iter with
  | nil =>
      intro i strLen buf h1 h2
      simp at h2
      exact absurd h1 (by omega)
  | cons c rest ih =>
      intro i strLen buf h1 h2
      by_cases hi : len ≤ i
      · simp [fromWideIterLoop, hi]
      · simp only [fromWideIterLoop, if_neg hi]
        exact ih (i + 1) (strLen + 1) (buf.set i c) (by omega) (by simp at h2 ⊢; omega)

/-- When the iterator supplies exactly the declared number of elements,
the loop succeeds and the data area holds exactly those elements: the
`pad` region of the buffer is replaced by the iterator's output. -/
theorem fromWideIterLoop_ok (len : Nat) : ∀ (iter front pad tail : List Nat),
    pad.length = iter.length → front.length + iter.length = len →
    (fromWideIterLoop len iter front.length front.length (front ++ pad ++ tail)).result =
      Except.ok (front ++ iter ++ tail) := by
  intro iter
  induction iter with
  | nil =>
      intro front pad tail hp hl
      have hpad : pad = [] := List.eq_nil_of_length_eq_zero (by simpa using hp)
      have hfl : front.length = len := by simpa using hl
      simp [fromWideIterLoop, hpad, hfl]
  | cons c rest ih =>
      intro front pad tail hp hl
      cases pad with
      | nil => simp at hp
      | cons p pad' =>
          have hguard : ¬ len ≤ front.length := by simp at hl; omega
          have hset : (front ++ p :: pad' ++ tail).set front.length c =
              (front ++ [c]) ++ pad' ++ tail := by
            rw [List.append_assoc, List.set_append_right _ _ (le_refl _)]
            simp
          have hih := ih (front ++ [c]) pad' tail (by simpa using hp)
            (by simp at hl ⊢; omega)
          simp only [fromWideIterLoop, if_neg hguard, hset]
          simp only [List.length_append, List.length_cons, List.length_nil] at hih ⊢
          simpa using hih

/-- Every index logged as written by the loop is below the declared
length: the out-of-range branch returns before any write. -/
theorem fromWideIterLoop_writes_lt (len : Nat) : ∀ (iter : List Nat) (i strLen : Nat)
    (buf : List Nat) (j : Nat),
    j ∈ (fromWideIterLoop len iter i strLen buf).writes → j < len := by
  intro iter
  induction iter with
  | nil =>
      intro i strLen buf j hj
      by_cases h : strLen ≠ len <;> simp [fromWideIterLoop, h] at hj
  | cons c rest ih =>
      intro i strLen buf j hj
      by_cases h : len ≤ i
      · simp [fromWideIterLoop, h] at hj
      · simp only [fromWideIterLoop, if_neg h] at hj
        simp at hj
        rcases hj with rfl | hj
        · omega
        · exact ih (i + 1) (strLen + 1) (buf.set i c) j hj

/-- Appending the terminator does not change the scanned-until-zero
portion of a buffer. -/
theorem takeWhile_append_term : ∀ (s : List Nat),
    ((s ++ [0]).takeWhile fun c => c != 0) = s.takeWhile fun c => c != 0 := by
  intro s
  induction s with
  | nil => simp
  | cons a s' ih =>
      by_cases ha : a = 0
      · subst ha; simp
      · have hpa : (a != 0) = true := by simpa using ha
        simp [List.takeWhile_cons, hpa, ih]

/-- Scanning a buffer holding an interior zero stops strictly before
its end. -/
theorem takeWhile_length_lt : ∀ (s : List Nat), 0 ∈ s →
    (s.takeWhile fun c => c != 0).length < s.length := by
  intro s
  induction s with
  | nil => intro h; simp at h
  | cons a s' ih =>
      intro h
      by_cases ha : a = 0
      · subst ha; simp
      · have h' : 0 ∈ s' := by
          rcases List.mem_cons.mp h with h0 | h0
          · exact absurd h0.symm ha
          · exact h0
        have hpa : (a != 0) = true := by simpa using ha
        have := ih h'
        simp [List.takeWhile_cons, hpa]
        omega

/-- The scanned-until-zero portion is never longer than the buffer. -/
theorem takeWhile_length_le : ∀ (s : List Nat),
    (s.takeWhile fun c => c != 0).length ≤ s.length := by
  intro s
  induction s with
  | nil => simp
  | cons a s' ih =>
      by_cases ha : a = 0
      · subst ha; simp
      · have hpa : (a != 0) = true := by simpa using ha
        simp [List.takeWhile_cons, hpa]
        omega

/-- Taking as many elements as the scanned-until-zero portion holds
recovers exactly that portion. -/
theorem take_takeWhile_length : ∀ (s : List Nat),
    s.take (s.takeWhile fun c => c != 0).length = s.takeWhile fun c => c != 0 := by
  intro s
  induction s with
  | nil => simp
  | cons a s' ih =>
      by_cases ha : a = 0
      · subst ha; simp
      · have hpa : (a != 0) = true := by simpa using ha
        simp [List.takeWhile_cons, hpa, ih]

/-- With enough fuel (the distance to the end of the buffer suffices),
the scan iterator started at offset `k` yields the until-zero portion
of the buffer from `k` on. -/
theorem collect_eq_takeWhile : ∀ (fuel : Nat) (buf : List Nat) (k : Nat),
    buf.length - k ≤ fuel →
    CoTaskMemWideString.Iter.collect fuel ⟨⟨buf⟩, k⟩ =
      ((buf.drop k).takeWhile fun c => c != 0) := by
  intro fuel
  induction fuel with
  | zero =>
      intro buf k h
      have hd : buf.drop k = [] := List.drop_eq_nil_iff.mpr (by omega)
      simp [CoTaskMemWideString.Iter.collect, hd]
  | succ fuel ih =>
      intro buf k h
      rcases hd : buf.drop k with _ | ⟨c, rest⟩
      · have hk : buf.length ≤ k := List.drop_eq_nil_iff.mp hd
        have hcur : (⟨⟨buf⟩, k⟩ : CoTaskMemWideString.Iter).current = 0 := by
          simp [CoTaskMemWideString.Iter.current, List.getElem?_eq_none hk]
        simp [CoTaskMemWideString.Iter.collect, CoTaskMemWideString.Iter.next,
          CoTaskMemWideString.Iter.currentIsNul, hcur, hd]
      · have hget : buf[k]? = some c := by
          have hgd := List.getElem?_drop buf k 0
          rw [hd] at hgd
          simpa using hgd.symm
        have hcur : (⟨⟨buf⟩, k⟩ : CoTaskMemWideString.Iter).current = c := by
          simp [CoTaskMemWideString.Iter.current, hget]
        by_cases hc : c = 0
        · subst hc
          simp [CoTaskMemWideString.Iter.collect, CoTaskMemWideString.Iter.next,
            CoTaskMemWideString.Iter.currentIsNul, hcur, hd]
        · have hklt : k < buf.length := by
            by_contra hk
            rw [List.drop_eq_nil_iff.mpr (by omega)] at hd
            cases hd
          have hrest : buf.drop (k + 1) = rest := by
            rw [← List.tail_drop, hd]
            rfl
          have hih := ih buf (k + 1) (by omega)
          rw [hrest] at hih
          have hpc : (c != 0) = true := by simpa using hc
          simp [CoTaskMemWideString.Iter.collect, CoTaskMemWideString.Iter.next,
            CoTaskMemWideString.Iter.currentIsNul, hcur, hc, hd, hih,
            List.takeWhile_cons, hpc]

/-- Allocating a `CoTaskMemWideString` from code units `s` in a world
whose CoTask allocator succeeds yields the buffer `s ++ [0]`. -/
theorem coTask_new_ok (w : MemWorld) (s : List Nat) (hc : w.coTaskAllocFails = false) :
    (CoTaskMemWideString.new w s).1 = some ⟨s ++ [0]⟩ := by
  have hdiv : (s.length + 1) * 2 / 2 = s.length + 1 :=
    Nat.mul_div_cancel _ (by norm_num)
  have hover := writeSeq_overwrite (s ++ [0]) [] (List.replicate (s.length + 1) w.junk)
    (by simp)
  simp only [List.nil_append, List.length_nil] at hover
  simp [CoTaskMemWideString.new, CoTaskMemAlloc, hc, hdiv, hover]

/-- The scan-derived views of a buffer `s ++ [0]`: iteration, `len` and
`as_slice` all stop at the first zero of `s` (or at its end). -/
theorem coTask_buf_spec (s : List Nat) :
    CoTaskMemWideString.iterList ⟨s ++ [0]⟩ = (s.takeWhile fun c => c != 0) ∧
    CoTaskMemWideString.len ⟨s ++ [0]⟩ = (s.takeWhile fun c => c != 0).length ∧
    CoTaskMemWideString.asSlice ⟨s ++ [0]⟩ = (s.takeWhile fun c => c != 0) := by
  have hiter : CoTaskMemWideString.iterList ⟨s ++ [0]⟩ = (s.takeWhile fun c => c != 0) := by
    have := collect_eq_takeWhile (s ++ [0]).length (s ++ [0]) 0 (by omega)
    simpa [CoTaskMemWideString.iterList, takeWhile_append_term] using this
  have hlen : CoTaskMemWideString.len ⟨s ++ [0]⟩ = (s.takeWhile fun c => c != 0).length := by
    simp [CoTaskMemWideString.len, hiter]
  refine ⟨hiter, hlen, ?_⟩
  have htw : (s.takeWhile fun c => c != 0).length ≤ s.length :=
    takeWhile_length_le s
  simp only [CoTaskMemWideString.asSlice, hlen]
  rw [List.take_append_of_le_length htw, take_takeWhile_length]

/-- On a well-formed allocation, reconstructing the borrowed view from
the raw pointer (byte count field divided by two, plus the terminator)
recovers the whole buffer. -/
theorem asBStrRef_inner_of_wf (a : BStrAlloc) (h : a.WellFormed) :
    (BStr.asBStrRef ⟨a⟩).inner = a.buf := by
  obtain ⟨hpos, hfield⟩ := h
  have hdiv : 2 * (a.buf.length - 1) / 2 = a.buf.length - 1 :=
    Nat.mul_div_cancel_left _ (by norm_num)
  have hsum : a.buf.length - 1 + 1 = a.buf.length := by omega
  simp only [BStr.asBStrRef, BStrRef.fromPtr, hfield, hdiv, hsum, List.take_length]

/-- The buffer produced by a successful `from_wide_iter` run is well
formed. -/
theorem wf_term_alloc (s : List Nat) :
    (BStrAlloc.mk (2 * s.length) (s ++ [0])).WellFormed := by
  constructor
  · simp
  · simp

/-- Length and slice of an owned `BStr` over the buffer `s ++ [0]` with
byte count `2 * s.length`: `len()` reports the byte count and
`as_wide_slice()` drops the terminator. -/
theorem bstr_term_spec (s : List Nat) :
    BStr.len ⟨⟨2 * s.length, s ++ [0]⟩⟩ = 2 * s.length ∧
    BStr.asWideSlice ⟨⟨2 * s.length, s ++ [0]⟩⟩ = s := by
  have hinner := asBStrRef_inner_of_wf ⟨2 * s.length, s ++ [0]⟩ (wf_term_alloc s)
  constructor
  · simp [BStr.len, BStrRef.len, BStr.asBStrRef] at hinner ⊢
    rw [hinner]
    simp
    omega
  · simp only [BStr.asWideSlice, BStrRef.asWideSlice, BStr.asBStrRef] at hinner ⊢
    rw [hinner]
    simp [List.take_append_of_le_length]

/-- Building a `BStr` from an `OsStr` with code units `s` in a world
whose allocator succeeds (and whose length fits `u32`) yields the
allocation `s ++ [0]` with byte count `2 * s.length`. -/
theorem tryFromOsStr_ok (w : MemWorld) (s : List Nat) (hlen : s.length < 2 ^ 32)
    (hb : w.sysAllocFails = false) :
    (BStr.tryFromOsStr w s).1 = Except.ok ⟨⟨2 * s.length, s ++ [0]⟩⟩ := by
  have hlen4 : s.length < 4294967296 := by
    norm_num at hlen
    exact hlen
  have hloop := fromWideIterLoop_ok s.length s [] (List.replicate s.length w.junk) [0]
    (by simp) (by simp)
  simp only [List.nil_append, List.length_nil, Nat.zero_add] at hloop
  simp [BStr.tryFromOsStr, BStr.fromWideIter, hlen4, SysAllocStringLen, hb, hloop]

/-- C3: for every well-formed length-prefixed allocation, the owned
value dereferences to a view covering the whole buffer including the
trailing terminator; the view's `len()` equals the stored byte count
(which excludes the terminator and is twice the data element count,
since the view length is the 4-byte byte count divided by two);
`owned.len()` equals the `len()` of the view obtained from it, and both
report the same content via slice comparison. -/
theorem bstr_deref_covers_whole_buffer (a : BStrAlloc) (h : a.WellFormed) :
    (BStr.asBStrRef ⟨a⟩).inner = a.buf ∧
    (BStr.asBStrRef ⟨a⟩).asWideSliceWithNul = a.buf ∧
    (BStr.asBStrRef ⟨a⟩).len = a.byteLenField ∧
    (BStr.asBStrRef ⟨a⟩).len = 2 * (a.buf.length - 1) ∧
    BStr.len ⟨a⟩ = (BStr.asBStrRef ⟨a⟩).len ∧
    BStr.asWideSlice ⟨a⟩ = (BStr.asBStrRef ⟨a⟩).asWideSlice := by
  obtain ⟨hpos, hfield⟩ := h
  have hinner := asBStrRef_inner_of_wf a ⟨hpos, hfield⟩
  refine ⟨hinner, hinner, ?_, ?_, rfl, rfl⟩
  · simp only [BStrRef.len, hinner, hfield]
    omega
  · simp only [BStrRef.len, hinner]
    omega

/-- Witness for `bstr_deref_covers_whole_buffer` at the concrete
allocation holding two data elements `[10, 20]` and byte count 4. -/
theorem bstr_deref_covers_whole_buffer_witness :
    (BStrAlloc.mk 4 [10, 20, 0]).WellFormed ∧
    (BStr.asBStrRef ⟨⟨4, [10, 20, 0]⟩⟩).inner = [10, 20, 0] ∧
    (BStr.asBStrRef ⟨⟨4, [10, 20, 0]⟩⟩).len = 4 :=
  ⟨⟨by decide, by decide⟩,
   (bstr_deref_covers_whole_buffer ⟨4, [10, 20, 0]⟩ ⟨by decide, by decide⟩).1,
   (bstr_deref_covers_whole_buffer ⟨4, [10, 20, 0]⟩ ⟨by decide, by decide⟩).2.2.1⟩

/-- C4: a declared count exceeding the iterator's actual length yields
`IterTooShort`; an iterator longer than the declared count yields
`IterTooLarge`; in both cases the partially built allocation is freed
before the error returns, so the live-allocation count is unchanged. -/
theorem from_wide_iter_mismatch_freed (w : MemWorld) (iter : List Nat) (len : Nat)
    (hlen : len < 2 ^ 32) (ha : w.sysAllocFails = false) :
    (iter.length < len →
      (BStr.fromWideIter w iter len).1 = Except.error BStrCreationError.IterTooShort) ∧
    (len < iter.length →
      (BStr.fromWideIter w iter len).1 = Except.error BStrCreationError.IterTooLarge) ∧
    (iter.length ≠ len →
      (BStr.fromWideIter w iter len).2.1.liveAllocs = w.liveAllocs) := by
  have hlen4 : len < 4294967296 := by
    norm_num at hlen
    exact hlen
  have hshort : iter.length < len →
      (fromWideIterLoop len iter 0 0 (List.replicate len w.junk ++ [0])).result =
        Except.error BStrCreationError.IterTooShort := fun hlt =>
    fromWideIterLoop_short len iter 0 0 _ (by omega) (by omega)
  have hlarge : len < iter.length →
      (fromWideIterLoop len iter 0 0 (List.replicate len w.junk ++ [0])).result =
        Except.error BStrCreationError.IterTooLarge := fun hlt =>
    fromWideIterLoop_large len iter 0 0 _ (by omega) (by omega)
  refine ⟨?_, ?_, ?_⟩
  · intro hlt
    simp [BStr.fromWideIter, hlen4, SysAllocStringLen, ha, hshort hlt]
  · intro hlt
    simp [BStr.fromWideIter, hlen4, SysAllocStringLen, ha, hlarge hlt]
  · intro hne
    rcases Nat.lt_or_ge iter.length len with hlt | hge
    · simp [BStr.fromWideIter, hlen4, SysAllocStringLen, ha, hshort hlt, SysFreeString]
    · have hlt : len < iter.length := by omega
      simp [BStr.fromWideIter, hlen4, SysAllocStringLen, ha, hlarge hlt, SysFreeString]

/-- Witness for `from_wide_iter_mismatch_freed`: declared count 3 with a
2-element iterator gives `IterTooShort` and leaves no live allocation;
declared count 1 with the same iterator gives `IterTooLarge`. -/
theorem from_wide_iter_mismatch_freed_witness :
    ((BStr.fromWideIter ⟨false, false, 0, 99⟩ [5, 6] 3).1 =
      Except.error BStrCreationError.IterTooShort) ∧
    ((BStr.fromWideIter ⟨false, false, 0, 99⟩ [5, 6] 3).2.1.liveAllocs = 0) ∧
    ((BStr.fromWideIter ⟨false, false, 0, 99⟩ [5, 6] 1).1 =
      Except.error BStrCreationError.IterTooLarge) := by
  have h3 := from_wide_iter_mismatch_freed ⟨false, false, 0, 99⟩ [5, 6] 3 (by norm_num) rfl
  have h1 := from_wide_iter_mismatch_freed ⟨false, false, 0, 99⟩ [5, 6] 1 (by norm_num) rfl
  exact ⟨h3.1 (by norm_num), h3.2.2 (by norm_num), h1.2.1 (by norm_num)⟩

/-- C5: allocating a `BStr` from the 12-character text `"hello world!"`
yields `len() = 24` (the byte count, terminator excluded) and an
`as_wide_slice()` equal to the UTF-16 encoding of the literal. -/
theorem hello_world_bstr (w : MemWorld) (h : w.sysAllocFails = false) :
    (BStr.tryFromOsStr w helloWorldWide).1 =
      Except.ok ⟨⟨24, helloWorldWide ++ [0]⟩⟩ ∧
    BStr.len ⟨⟨24, helloWorldWide ++ [0]⟩⟩ = 24 ∧
    BStr.asWideSlice ⟨⟨24, helloWorldWide ++ [0]⟩⟩ = helloWorldWide := by
  have hok := tryFromOsStr_ok w helloWorldWide (by norm_num [helloWorldWide]) h
  have hlen : helloWorldWide.length = 12 := by norm_num [helloWorldWide]
  refine ⟨?_, by decide, by decide⟩
  rw [hok]
  norm_num [hlen]

/-- Witness for `hello_world_bstr` at a concrete world whose allocator
succeeds. -/
theorem hello_world_bstr_witness :
    (BStr.tryFromOsStr ⟨false, false, 0, 77⟩ helloWorldWide).1 =
      Except.ok ⟨⟨24, helloWorldWide ++ [0]⟩⟩ ∧
    BStr.len ⟨⟨24, helloWorldWide ++ [0]⟩⟩ = 24 :=
  ⟨(hello_world_bstr ⟨false, false, 0, 77⟩ rfl).1,
   (hello_world_bstr ⟨false, false, 0, 77⟩ rfl).2.1⟩

/-- C6: for text with an embedded zero code unit, the NUL-terminated
`CoTaskMemWideString` truncates at the first zero — its iteration,
`len()` and `as_slice()` all stop there, strictly before the full
length — while the length-prefixed `BStr` keeps the full declared
length (`len() = 2 * count` bytes) and reports `contains_nul()`. -/
theorem embedded_nul_truncation (w : MemWorld) (s : List Nat) (hz : 0 ∈ s)
    (hlen : s.length < 2 ^ 32) (hb : w.sysAllocFails = false)
    (hc : w.coTaskAllocFails = false) :
    ((CoTaskMemWideString.new w s).1 = some ⟨s ++ [0]⟩ ∧
      CoTaskMemWideString.iterList ⟨s ++ [0]⟩ = (s.takeWhile fun c => c != 0) ∧
      CoTaskMemWideString.len ⟨s ++ [0]⟩ = (s.takeWhile fun c => c != 0).length ∧
      CoTaskMemWideString.len ⟨s ++ [0]⟩ < s.length ∧
      CoTaskMemWideString.asSlice ⟨s ++ [0]⟩ = (s.takeWhile fun c => c != 0)) ∧
    ((BStr.tryFromOsStr w s).1 = Except.ok ⟨⟨2 * s.length, s ++ [0]⟩⟩ ∧
      BStr.len ⟨⟨2 * s.length, s ++ [0]⟩⟩ = 2 * s.length ∧
      BStr.containsNul ⟨⟨2 * s.length, s ++ [0]⟩⟩ = true) := by
  obtain ⟨hiter, hclen, hslice⟩ := coTask_buf_spec s
  obtain ⟨hblen, hbslice⟩ := bstr_term_spec s
  refine ⟨⟨coTask_new_ok w s hc, hiter, hclen, ?_, hslice⟩,
    tryFromOsStr_ok w s hlen hb, hblen, ?_⟩
  · rw [hclen]
    exact takeWhile_length_lt s hz
  · have hcn : BStr.containsNul ⟨⟨2 * s.length, s ++ [0]⟩⟩ =
        (BStr.asWideSlice ⟨⟨2 * s.length, s ++ [0]⟩⟩).any fun el => el == 0 := rfl
    rw [hcn, hbslice]
    simp only [List.any_eq_true, beq_iff_eq]
    exact ⟨0, hz, rfl⟩

/-- Witness for `embedded_nul_truncation` at the concrete code units
`[104, 0, 119]`: the scan stops after one unit while the `BStr` keeps
all three and reports an interior NUL. -/
theorem embedded_nul_truncation_witness :
    CoTaskMemWideString.len ⟨[104, 0, 119] ++ [0]⟩ = 1 ∧
    BStr.len ⟨⟨2 * 3, [104, 0, 119] ++ [0]⟩⟩ = 2 * 3 ∧
    BStr.containsNul ⟨⟨2 * 3, [104, 0, 119] ++ [0]⟩⟩ = true := by
  have h := embedded_nul_truncation ⟨false, false, 0, 13⟩ [104, 0, 119]
    (by decide) (by norm_num) rfl rfl
  have hlen3 : ([104, 0, 119] : List Nat).length = 3 := by decide
  refine ⟨?_, ?_, ?_⟩
  · have := h.1.2.2.1
    simpa using this
  · have := h.2.2.1
    simpa [hlen3] using this
  · have := h.2.2.2
    simpa [hlen3] using this

/-- C7: for text with no embedded terminator, encoding into either
foreign string and decoding back to an `OsString` (modelled by its wide
code units) recovers the input exactly. -/
theorem roundtrip_decode_encode (w : MemWorld) (s : List Nat) (hz : 0 ∉ s)
    (hlen : s.length < 2 ^ 32) (hb : w.sysAllocFails = false)
    (hc : w.coTaskAllocFails = false) :
    ((BStr.tryFromOsStr w s).1 = Except.ok ⟨⟨2 * s.length, s ++ [0]⟩⟩ ∧
      BStr.toOsString ⟨⟨2 * s.length, s ++ [0]⟩⟩ = s) ∧
    ((CoTaskMemWideString.new w s).1 = some ⟨s ++ [0]⟩ ∧
      CoTaskMemWideString.asOsString ⟨s ++ [0]⟩ = s) := by
  obtain ⟨hblen, hbslice⟩ := bstr_term_spec s
  obtain ⟨hiter, hclen, hslice⟩ := coTask_buf_spec s
  have htw : (s.takeWhile fun c => c != 0) = s := by
    refine List.takeWhile_eq_self_iff.mpr fun x hx => ?_
    have : x ≠ 0 := fun h0 => hz (h0 ▸ hx)
    simpa using this
  refine ⟨⟨tryFromOsStr_ok w s hlen hb, ?_⟩, coTask_new_ok w s hc, ?_⟩
  · have hto : BStr.toOsString ⟨⟨2 * s.length, s ++ [0]⟩⟩ =
        BStr.asWideSlice ⟨⟨2 * s.length, s ++ [0]⟩⟩ := rfl
    rw [hto, hbslice]
  · simp only [CoTaskMemWideString.asOsString, hslice, htw]

/-- Witness for `roundtrip_decode_encode` at the concrete code units
`[104, 105]` (the text `"hi"`). -/
theorem roundtrip_decode_encode_witness :
    BStr.toOsString ⟨⟨2 * ([104, 105] : List Nat).length, [104, 105] ++ [0]⟩⟩ = [104, 105] ∧
    CoTaskMemWideString.asOsString ⟨[104, 105] ++ [0]⟩ = [104, 105] := by
  have h := roundtrip_decode_encode ⟨false, false, 0, 13⟩ [104, 105]
    (by decide) (by norm_num) rfl rfl
  exact ⟨h.1.2, h.2.2⟩

/-- C9: regardless of how many items the iterator produces, every
buffer index logged as written by `from_wide_iter` is below the
declared length `len`, so no write lands outside the `len + 1`-element
allocation. -/
theorem from_wide_iter_writes_in_bounds (w : MemWorld) (iter : List Nat) (len : Nat) :
    ∀ j ∈ (BStr.fromWideIter w iter len).2.2, j < len := by
  intro j hj
  by_cases hlen : len < 2 ^ 32
  · have hlen4 : len < 4294967296 := by
      norm_num at hlen
      exact hlen
    cases ha : w.sysAllocFails with
    | true => simp [BStr.fromWideIter, hlen4, SysAllocStringLen, ha] at hj
    | false =>
        rcases hres : (fromWideIterLoop len iter 0 0 (List.replicate len w.junk ++ [0])).result
          with e | b <;>
          simp only [BStr.fromWideIter, if_pos hlen, SysAllocStringLen, ha,
            Bool.false_eq_true, if_false, hres] at hj <;>
          exact fromWideIterLoop_writes_lt len iter 0 0 _ j hj
  · have hlen4 : ¬ len < 4294967296 := by
      norm_num at hlen ⊢
      omega
    simp [BStr.fromWideIter, hlen4] at hj

/-- Witness for `from_wide_iter_writes_in_bounds`: the first write of a
concrete in-range construction lands at index 0 of a 3-slot
allocation. -/
theorem from_wide_iter_writes_in_bounds_witness : 0 < 2 :=
  from_wide_iter_writes_in_bounds ⟨false, false, 0, 9⟩ [5, 6] 2 0 (by decide)

/-- An iterator whose `has_more` flag is down yields nothing, for any
number of further `next` calls. -/
theorem run_exhausted : ∀ (n : Nat) (it : ProcessIter), it.has_more = false →
    ProcessIter.run n it = [] := by
  intro n it h
  cases n with
  | zero => rfl
  | succ n => simp [ProcessIter.run, ProcessIter.next, h]

/-- Invariant of the yielding state: with the cursor record holding
entry `j` and the OS cursor at `j + 1`, driving the iterator (with
enough calls) yields exactly the remaining entries from `j` on. -/
theorem run_from_position : ∀ (n : Nat) (entries : List PROCESSENTRY32W) (j : Nat)
    (hj : j < entries.length), entries.length - j ≤ n →
    ProcessIter.run n ⟨entries.get ⟨j, hj⟩, true, ⟨entries, j + 1⟩⟩ = entries.drop j := by
  intro n
  induction n with
  | zero =>
      intro entries j hj h
      omega
  | succ n ih =>
      intro entries j hj h
      have hdrop := List.drop_eq_getElem_cons hj
      by_cases hnext : j + 1 < entries.length
      · have hrun := ih entries (j + 1) hnext (by omega)
        simp only [ProcessIter.run, ProcessIter.next, if_pos, Process32NextW,
          dif_pos hnext]
        rw [hdrop]
        simp only [List.get_eq_getElem] at hrun ⊢
        rw [hrun]
      · have hnil : entries.drop (j + 1) = [] := List.drop_eq_nil_iff.mpr (by omega)
        simp only [ProcessIter.run, ProcessIter.next, if_pos, Process32NextW,
          dif_neg hnext]
        rw [run_exhausted n _ rfl, hdrop, hnil]
        simp

/-- C8: once `has_more` is false, every further `next()` returns
nothing and leaves the iterator unchanged — there is no transition back
to the start state; a snapshot with zero entries yields no items; and a
full enumeration yields exactly the captured entries, each copied out
of the cursor before it is overwritten. -/
theorem process_iter_exhausted_permanent (it : ProcessIter)
    (entries : List PROCESSENTRY32W) (c n : Nat) :
    (it.has_more = false → it.next = (none, it) ∧ ∀ m, it.run m = []) ∧
    ((ProcessIter.fromSnapshot ⟨[], c⟩).has_more = false ∧
      ∀ m, (ProcessIter.fromSnapshot ⟨[], c⟩).run m = []) ∧
    (entries.length ≤ n → (ProcessIter.fromSnapshot ⟨entries, c⟩).run n = entries) := by
  have hempty : (ProcessIter.fromSnapshot ⟨[], c⟩).has_more = false := rfl
  refine ⟨?_, ⟨hempty, fun m => run_exhausted m _ hempty⟩, ?_⟩
  · intro h
    exact ⟨by simp [ProcessIter.next, h], fun m => run_exhausted m it h⟩
  · intro hn
    cases entries with
    | nil => exact run_exhausted n _ hempty
    | cons e rest =>
        have h0 : 0 < (e :: rest).length := by simp
        have := run_from_position n (e :: rest) 0 h0 (by simpa using hn)
        simpa [ProcessIter.fromSnapshot, Process32FirstW] using this

/-- Witness for `process_iter_exhausted_permanent`: a two-entry
snapshot yields exactly its two entries in order, and the empty
snapshot yields nothing. -/
theorem process_iter_exhausted_permanent_witness :
    (ProcessIter.fromSnapshot ⟨[⟨31⟩, ⟨42⟩], 0⟩).run 5 = [⟨31⟩, ⟨42⟩] ∧
    (ProcessIter.fromSnapshot ⟨[], 0⟩).run 3 = [] := by
  have h := process_iter_exhausted_permanent ⟨⟨0⟩, false, ⟨[], 0⟩⟩ [⟨31⟩, ⟨42⟩] 0 5
  exact ⟨h.2.2 (by norm_num), h.2.1.2 3⟩

end Skylight
